import Mathlib

/-!
Verification of the X harvester (src/ingest_news/X_pull.py).

This file shallowly embeds the pure logic of the harvester's single run
(`main`): the query batch planner, the rotating cursor, the since_id
checkpoint update, the response normalisation, and the media side-loader.
Machine strings are Lean `String`s (Python `len` counts code points, as
`String.length` does); Python integers are `Int`/`Nat`; fallible lookups
are `Option`; every `try/except Exception: pass` block is modelled by the
value the run continues with.  External effects (GCS blob reads/writes,
HTTP requests) are modelled by explicit inputs and boolean success
oracles; a run's observable outputs are returned as data.
-/

/-- Python truthiness for an optional string: `None` and `""` are falsy;
a truthy string is returned unchanged. -/
def truthyStr : Option String → Option String
  | none => none
  | some s => if s = ("") then none else some s

/-- Python `a or b` on optional strings. -/
def pyOrStr (a b : Option String) : Option String :=
  match truthyStr a with
  | some s => some s
  | none => b

/-- Value of a list of decimal digit characters, most significant first
(the value `int` computes on a digit string). -/
def dVal (l : List Char) : Nat :=
  l.foldl (fun a c => 10 * a + (c.toNat - 48)) 0

/-- All characters are ASCII decimal digits. -/
def allDigits (l : List Char) : Bool :=
  l.all (fun c => c.isDigit)

/-- Python `str.isdigit` restricted to ASCII digit strings: nonempty and
all digits. -/
def isdigitB (s : String) : Bool :=
  !s.data.isEmpty && allDigits s.data

/-- Python `int(s)` on a string: optional sign followed by a nonempty run
of digits parses to its value, anything else raises (`none`). -/
def pyInt? (s : String) : Option Int :=
  match s.data with
  | '-' :: rest => if rest ≠ [] ∧ allDigits rest then some (-(dVal rest : Int)) else none
  | '+' :: rest => if rest ≠ [] ∧ allDigits rest then some ((dVal rest : Int)) else none
  | l => if l ≠ [] ∧ allDigits l then some ((dVal l : Int)) else none

/-! ## Query batch planner (X_pull.py lines 55-72) -/

/-- The static query suffix appended to every batch. -/
def suffixStr : String := (" -is:retweet -is:reply")

/-- Python `sep.join(l)`. -/
def joinSep (sep : String) : List String → String
  | [] => ("")
  | [a] => a
  | a :: b :: rest => a ++ sep ++ joinSep sep (b :: rest)

/-- Characters after the first colon, if any (the tail of Python
`c.split(":", 1)`). -/
def afterFirstColon : List Char → Option (List Char)
  | [] => none
  | c :: cs => if c = ':' then some cs else afterFirstColon cs

/-- Python `c.split(":", 1)[1] if ":" in c else c`: recover the handle
from a `from:` clause. -/
def stripHandle (c : String) : String :=
  match afterFirstColon c.data with
  | some rest => String.mk rest
  | none => c

/-- Loop state of the planner: closed query strings, their handle lists,
and the open batch of clauses. -/
structure PlanState where
  query_strings : List String
  batch_handles : List (List String)
  current : List String
deriving DecidableEq

/-- One iteration of the planner loop over a clause (X_pull.py lines
60-69): grow the open batch if the tentative composed query fits,
otherwise close the open batch (if nonempty) and restart with this
clause. -/
def planStep (maxLen : Nat) (st : PlanState) (clause : String) : PlanState :=
  let tentative :=
    if st.current = [] then clause ++ suffixStr
    else joinSep (" OR ") (st.current ++ [clause]) ++ suffixStr
  if tentative.length ≤ maxLen then
    { st with current := st.current ++ [clause] }
  else
    let st₁ :=
      if st.current = [] then st
      else
        { st with
          query_strings := st.query_strings ++ [joinSep (" OR ") st.current ++ suffixStr]
          batch_handles := st.batch_handles ++ [st.current.map stripHandle] }
    { st₁ with current := [clause] }

/-- Close the open batch after the loop (X_pull.py lines 70-72). -/
def planFinish (st : PlanState) : PlanState :=
  if st.current = [] then st
  else
    { st with
      query_strings := st.query_strings ++ [joinSep (" OR ") st.current ++ suffixStr]
      batch_handles := st.batch_handles ++ [st.current.map stripHandle] }

/-- The planner: map handles to `from:` clauses and greedily pack them
into query strings under the length bound (the code instantiates
`maxLen` with the hard-coded 512). Returns the composed query strings
and the handle lists per batch. -/
def plan (handles : List String) (maxLen : Nat) : List String × List (List String) :=
  let st := planFinish ((handles.map (fun h => ("from:") ++ h)).foldl (planStep maxLen) ⟨[], [], []⟩)
  (st.query_strings, st.batch_handles)

/-! ## Checkpoint (since_id) update (X_pull.py lines 89-99 and 310-320) -/

/-- The ids the checkpoint code collects: `[t.get("id") for t in tweets
if t.get("id")]` (truthy ids only). -/
def truthyIds (ids : List (Option String)) : List String :=
  ids.filterMap truthyStr

/-- Tail of Python `max(ids, key=int)`: fold keeping the first element
with the strictly greatest integer key; a key failure raises (`none`). -/
def maxByIntAux : String × Int → List String → Option String
  | best, [] => some best.1
  | best, x :: xs =>
    match pyInt? x with
    | none => none
    | some v => maxByIntAux (if v > best.2 then (x, v) else best) xs

/-- Python `max(ids, key=int)`; `none` when the list is empty or any
element fails to parse (an exception in the source). -/
def maxByInt : List String → Option String
  | [] => none
  | x :: xs =>
    match pyInt? x with
    | none => none
    | some v => maxByIntAux (x, v) xs

/-- The checkpoint update block (X_pull.py lines 310-320), as the value
written to the since blob: `some m` when the code overwrites the blob
with max id `m`, `none` when the blob is left untouched (empty id list,
a raised exception, or no strict improvement). -/
def checkpointWrite (since_id : Option String) (raw_ids : List (Option String)) : Option String :=
  let tweet_ids := truthyIds raw_ids
  if tweet_ids.isEmpty then none
  else
    match maxByInt tweet_ids with
    | none => none
    | some max_id =>
      match pyInt? max_id with
      | none => none
      | some mv =>
        let prev : Int :=
          match since_id with
          | some s => if truthyStr (some s) ≠ none ∧ isdigitB s = true then (dVal s.data : Int) else 0
          | none => 0
        if mv > prev then some max_id else none

/-- The since_id actually attached to the request parameters: the loaded
checkpoint if truthy (`if since_id: common_params["since_id"] = ...`). -/
def sentSinceId (since_id : Option String) : Option String :=
  truthyStr since_id

/-! ## Rotating cursor (X_pull.py lines 116-153) -/

/-- Shape of the JSON value found under `next_index` in the cursor blob:
an integer (Python `isinstance(..., int)`; JSON booleans also land here
as 0/1 since Python `bool` is an `int` subclass) or anything else. -/
inductive JVal where
  | jint : Int → JVal
  | jother : JVal
deriving DecidableEq

/-- Outcome of reading the cursor blob: blob absent, download or JSON
parse raised, or a parsed object whose `next_index` member is the given
value (`none` when the key is missing or the blob body is empty). -/
inductive CursorRead where
  | missing : CursorRead
  | readErr : CursorRead
  | content : Option JVal → CursorRead
deriving DecidableEq

/-- X_pull.py lines 123-132: `next_index` defaults to 0 and is taken
from the blob only when present and an `int` instance. -/
def loadNextIndex : CursorRead → Int
  | .missing => 0
  | .readErr => 0
  | .content none => 0
  | .content (some (.jint i)) => i
  | .content (some .jother) => 0

/-! ## Response objects and normalisation (X_pull.py lines 174-303) -/

/-- One entry of `includes.media[*].variants`. -/
structure Variant where
  content_type : Option String
  bit_rate : Option Int
  url : Option String
deriving DecidableEq

/-- One entry of `includes.media`. `mtype` models the JSON field
`type`. -/
structure MediaObj where
  media_key : Option String
  mtype : Option String
  url : Option String
  preview_image_url : Option String
  variants : List Variant
deriving DecidableEq

/-- One entry of `includes.users`. `uid` models the JSON field `id`. -/
structure UserObj where
  uid : Option String
  username : Option String
deriving DecidableEq

/-- One entry of `data` (a raw post). `tid` models the JSON field `id`;
`media_keys` models `attachments.media_keys` (empty when absent). -/
structure Tweet where
  tid : Option String
  text : Option String
  author_id : Option String
  created_at : Option String
  media_keys : List String
deriving DecidableEq

/-- The parsed response payload; a failed request yields the empty
payload (the code continues with `payload = {}`). -/
structure Payload where
  users : List UserObj
  media : List MediaObj
  tweets : List Tweet
deriving DecidableEq

/-- Lookup in a Python dict built by inserting the pairs in list order
(later insertions overwrite earlier ones). -/
def pyDictGet {α : Type} (m : List (String × α)) (k : String) : Option α :=
  m.foldl (fun r p => if p.1 = k then some p.2 else r) none

/-- X_pull.py lines 175-179: author-id to username map from the included
users (truthy id and username only). -/
def buildUserMap (users : List UserObj) : List (String × String) :=
  users.foldl (fun acc u =>
    match truthyStr u.uid, truthyStr u.username with
    | some i, some n => acc ++ [(i, n)]
    | _, _ => acc) []

/-- X_pull.py lines 182-186: media_key to media object map (truthy keys
only). -/
def buildMediaMap (ms : List MediaObj) : List (String × MediaObj) :=
  ms.foldl (fun acc m =>
    match truthyStr m.media_key with
    | some k => acc ++ [(k, m)]
    | none => acc) []

/-- Sort key of a variant: `v.get("bit_rate", 0)`. -/
def variantKey (v : Variant) : Int :=
  (v.bit_rate).getD 0

/-- Tail of Python `max(mp4s, key=...)`: first maximal element wins. -/
def pyMaxVarAux : Variant → List Variant → Variant
  | best, [] => best
  | best, v :: vs => pyMaxVarAux (if variantKey v > variantKey best then v else best) vs

/-- Python `max(mp4s, key=lambda v: v.get("bit_rate", 0))` on a possibly
empty list. -/
def pyMaxVar : List Variant → Option Variant
  | [] => none
  | v :: vs => some (pyMaxVarAux v vs)

/-- Download-URL resolution per attachment (X_pull.py lines 230-244):
photos use their direct url; videos and animated gifs use the url of the
highest-bit-rate `video/mp4` variant, falling back to the preview image
when that is missing or falsy; other kinds use `url or
preview_image_url`. -/
def resolveDownloadUrl (m : MediaObj) : Option String :=
  if m.mtype = some ("photo") then m.url
  else if m.mtype = some ("video") ∨ m.mtype = some ("animated_gif") then
    let mp4s := m.variants.filter (fun v => v.content_type = some ("video/mp4"))
    let fromVar : Option String :=
      match pyMaxVar mp4s with
      | some best => best.url
      | none => none
    pyOrStr fromVar m.preview_image_url
  else pyOrStr m.url m.preview_image_url

/-! ## Filename derivation and per-post dedup (X_pull.py lines 251-272) -/

/-- Drop the fragment, an initial `scheme:`, and a `//netloc` prefix,
then keep everything before the query: a model of
`urlparse(url).path` for the URL shapes the harvester sees. -/
def isSchemeChar (c : Char) : Bool :=
  c.isAlpha || c.isDigit || c = '+' || c = '-' || c = '.'

/-- Remove a leading valid `scheme:` prefix if present. -/
def dropSchemeChars (l : List Char) : List Char :=
  let pre := l.takeWhile (fun c => c != ':')
  match l.drop pre.length with
  | ':' :: rest =>
    match pre with
    | [] => l
    | c :: cs => if c.isAlpha && (c :: cs).all isSchemeChar then rest else l
  | _ => l

/-- Remove a leading `//netloc` (the authority ends at the first `/`,
`?` or `#`). -/
def dropNetloc (l : List Char) : List Char :=
  match l with
  | '/' :: '/' :: rest => rest.dropWhile (fun c => c != '/' && c != '?' && c != '#')
  | _ => l

/-- The `path` component of `urlparse(u)`. -/
def pathOfUrl (u : String) : String :=
  String.mk ((dropNetloc (dropSchemeChars (u.data.takeWhile (fun c => c != '#')))).takeWhile
    (fun c => c != '?'))

/-- Split a character list at every `/`. -/
def splitSlash : List Char → List (List Char)
  | [] => [[]]
  | c :: cs =>
    match splitSlash cs with
    | [] => [[]]
    | a :: as => if c = '/' then [] :: a :: as else (c :: a) :: as

/-- Python `PurePosixPath(p).name`: the last component after dropping
empty and `.` components. -/
def posixName (p : String) : String :=
  let comps := (splitSlash p.data).filter (fun a => !a.isEmpty && a != ['.'])
  match comps.getLast? with
  | some a => String.mk a
  | none => ("")

/-- X_pull.py lines 252-256: `Path(urlparse(u).path).name or "media"`. -/
def originalNameOf (u : String) : String :=
  let n := posixName (pathOfUrl u)
  if n = ("") then ("media") else n

/-- Split at the last dot: Python `base.rsplit(".", 1)` when a dot is
present. -/
def rsplitDotAux : List Char → Option (List Char × List Char)
  | [] => none
  | c :: cs =>
    match rsplitDotAux cs with
    | some (a, b) => some (c :: a, b)
    | none => if c = '.' then some ([], cs) else none

/-- X_pull.py lines 263-267: the collision candidate for suffix counter
`k`, inserting `_k` before the extension when the base name has one. -/
def mkCandidate (base : String) (k : Nat) : String :=
  match rsplitDotAux base.data with
  | some (stem, ext) => String.mk stem ++ ("_") ++ Nat.repr k ++ (".") ++ String.mk ext
  | none => base ++ ("_") ++ Nat.repr k

/-- The k-th name tried by the collision loop: the base name first, then
the suffixed candidates. -/
def candAt (base : String) (k : Nat) : String :=
  if k = 0 then base else mkCandidate base k

/-- The `while name_candidate in used_names` loop (X_pull.py lines
260-268), with explicit fuel. -/
def firstFree (used : List String) (base : String) : Nat → Nat → String
  | 0, k => candAt base k
  | fuel + 1, k => if candAt base k ∈ used then firstFree used base fuel (k + 1) else candAt base k

/-- The name chosen for an asset given the names already used within the
post; `used.length + 1` rounds of the loop always suffice. -/
def dedupName (used : List String) (base : String) : String :=
  firstFree used base (used.length + 1) 0

/-! ## Media side-loading per post (X_pull.py lines 219-303) -/

/-- Accumulator of the per-post media loop. `tried` records each
attempted download and upload as a (url, blob path) pair; the
corresponding GCS path is appended to `media_gcs_paths` only when the
attempt succeeds. -/
structure MediaAcc where
  media_urls : List String
  media_gcs_paths : List String
  used_names : List String
  tried : List (String × String)
deriving DecidableEq

/-- The `gs://bucket/path` string recorded for an uploaded asset. -/
def gsPathOf (bucket path : String) : String :=
  ("gs://") ++ bucket ++ ("/") ++ path

/-- X_pull.py line 272: blob path of one asset. -/
def mediaBlobPath (dateDir tid name : String) : String :=
  if tid = ("") then ("raw/X_news/") ++ dateDir ++ ("/media/") ++ name
  else ("raw/X_news/") ++ dateDir ++ ("/media/") ++ tid ++ ("_") ++ name

/-- One iteration of the per-post media loop (X_pull.py lines 226-291)
for media key `mk`: unknown keys and falsy resolved urls are skipped;
otherwise the url is recorded, a deduplicated filename is reserved, and
the download and upload are attempted, with a failure (oracle `ok`
false) caught and logged, leaving only the GCS path list unchanged. -/
def mediaStep (ok : String → String → Bool) (bucket dateDir tid : String)
    (mediaMap : List (String × MediaObj)) (acc : MediaAcc) (mk : String) : MediaAcc :=
  match pyDictGet mediaMap mk with
  | none => acc
  | some m =>
    match truthyStr (resolveDownloadUrl m) with
    | none => acc
    | some url =>
      let name := dedupName acc.used_names (originalNameOf url)
      let path := mediaBlobPath dateDir tid name
      { media_urls := acc.media_urls ++ [url]
        media_gcs_paths :=
          if ok url path then acc.media_gcs_paths ++ [gsPathOf bucket path]
          else acc.media_gcs_paths
        used_names := acc.used_names ++ [name]
        tried := acc.tried ++ [(url, path)] }

/-- The whole media loop of one post. -/
def processMedia (ok : String → String → Bool) (bucket dateDir tid : String)
    (mediaMap : List (String × MediaObj)) (mks : List String) : MediaAcc :=
  mks.foldl (mediaStep ok bucket dateDir tid mediaMap) ⟨[], [], [], []⟩

/-- The JSONL record written per post (X_pull.py lines 293-302); the
timezone-conversion fields (`created_at_et`, `pulled_at_et`) are outside
the embedded fragment. `rid` models the JSON field `id`. -/
structure Record where
  rid : Option String
  text : Option String
  author_username : Option String
  created_at : Option String
  media_urls : List String
  media_gcs_paths : List String
deriving DecidableEq

/-- Normalisation of one raw post into its record, including its media
side-loading. -/
def recordOf (ok : String → String → Bool) (bucket dateDir : String)
    (userMap : List (String × String)) (mediaMap : List (String × MediaObj))
    (t : Tweet) : Record :=
  let tid := (t.tid).getD ("")
  let acc := processMedia ok bucket dateDir tid mediaMap t.media_keys
  { rid := t.tid
    text := t.text
    author_username := match t.author_id with | some a => pyDictGet userMap a | none => none
    created_at := t.created_at
    media_urls := acc.media_urls
    media_gcs_paths := acc.media_gcs_paths }

/-- The `for t in tweets` loop appending one line per post (X_pull.py
lines 206-303). -/
def buildLines (ok : String → String → Bool) (bucket dateDir : String)
    (userMap : List (String × String)) (mediaMap : List (String × MediaObj))
    (tweets : List Tweet) : List Record :=
  tweets.foldl (fun lines t => lines ++ [recordOf ok bucket dateDir userMap mediaMap t]) []

/-! ## One run of the script and repeated runs -/

/-- The externally persisted state surviving between runs: the since
blob content and the cursor blob content. -/
structure Store where
  checkpoint : Option String
  cursor : CursorRead
deriving DecidableEq

/-- Observable outputs of one run: the since_id sent with the search
request, the selected batch index, and the records buffered for the
consolidated artifact. -/
structure TickOut where
  sentSince : Option String
  selected : Int
  records : List Record
deriving DecidableEq

/-- One run of `main` after startup (X_pull.py lines 89-322), for a
planner that produced `num` batches (the code returns early when `num =
0`, so `num ≥ 1` here).  `cursorOk` is the success of the cursor blob
upload (lines 143-153, attempted before the request and regardless of
its outcome), `chkOk` the success of the since blob upload, `ok` the
per-asset download and upload oracle, and `payload` the parsed response
(empty on request failure). -/
def runOnce (num : Nat) (bucket dateDir : String) (ok : String → String → Bool)
    (cursorOk chkOk : Bool) (store : Store) (payload : Payload) : Store × TickOut :=
  let since_id := store.checkpoint
  let next_index := loadNextIndex store.cursor
  let selected := Int.emod next_index (num : Int)
  let cursor' :=
    if cursorOk then CursorRead.content (some (JVal.jint (Int.emod (selected + 1) (num : Int))))
    else store.cursor
  let userMap := buildUserMap payload.users
  let mediaMap := buildMediaMap payload.media
  let records := buildLines ok bucket dateDir userMap mediaMap payload.tweets
  let w := checkpointWrite since_id (payload.tweets.map (fun t => t.tid))
  let checkpoint' :=
    match w with
    | some m => if chkOk then some m else store.checkpoint
    | none => store.checkpoint
  (⟨checkpoint', cursor'⟩, ⟨sentSinceId since_id, selected, records⟩)

/-- Consecutive runs of the script, one payload per run, returning each
run's outputs and the final persisted state. -/
def runs (num : Nat) (bucket dateDir : String) (ok : String → String → Bool)
    (cursorOk chkOk : Bool) : Store → List Payload → List TickOut × Store
  | st, [] => ([], st)
  | st, p :: ps =>
    let r := runOnce num bucket dateDir ok cursorOk chkOk st p
    let rest := runs num bucket dateDir ok cursorOk chkOk r.1 ps
    (r.2 :: rest.1, rest.2)

/-! ## Planner theorems -/

theorem stripHandle_from (h : String) : stripHandle (("from:") ++ h) = h := rfl

theorem planStep_join (maxLen : Nat) (st : PlanState) (h : String) :
    (planStep maxLen st (("from:") ++ h)).batch_handles.flatten
      ++ ((planStep maxLen st (("from:") ++ h)).current.map stripHandle)
    = st.batch_handles.flatten ++ st.current.map stripHandle ++ [h] := by
  simp only [planStep]
  split
  next hcur =>
    split <;> simp [hcur, stripHandle_from]
  next hcur =>
    split <;> simp [hcur, stripHandle_from, List.flatten_append]

theorem plan_foldl_join (maxLen : Nat) :
    ∀ (hs : List String) (st : PlanState),
      ((hs.map (fun h => ("from:") ++ h)).foldl (planStep maxLen) st).batch_handles.flatten
        ++ ((hs.map (fun h => ("from:") ++ h)).foldl (planStep maxLen) st).current.map stripHandle
      = st.batch_handles.flatten ++ st.current.map stripHandle ++ hs
  | [], st => by simp
  | h :: hs, st => by
    simp only [List.map_cons, List.foldl_cons]
    rw [plan_foldl_join maxLen hs (planStep maxLen st (("from:") ++ h)), planStep_join]
    simp

theorem planFinish_join (st : PlanState) :
    (planFinish st).batch_handles.flatten
      = st.batch_handles.flatten ++ st.current.map stripHandle := by
  simp only [planFinish]
  split
  next hcur => simp [hcur]
  next hcur => simp [List.flatten_append]

/-- C4: concatenating the planner's batches' account lists in batch order
reproduces the input account list exactly; no account is dropped,
duplicated, or reordered. -/
theorem c4_batches_preserve_accounts (handles : List String) (maxLen : Nat) :
    ((plan handles maxLen).2).flatten = handles := by
  simp only [plan]
  rw [planFinish_join, plan_foldl_join]
  simp

theorem planStep_bound (maxLen : Nat) (st : PlanState) (clause : String)
    (hc : (clause ++ suffixStr).length ≤ maxLen)
    (h1 : ∀ q ∈ st.query_strings, q.length ≤ maxLen)
    (h2 : st.current ≠ [] → (joinSep (" OR ") st.current ++ suffixStr).length ≤ maxLen) :
    (∀ q ∈ (planStep maxLen st clause).query_strings, q.length ≤ maxLen)
    ∧ ((planStep maxLen st clause).current ≠ [] →
        (joinSep (" OR ") (planStep maxLen st clause).current ++ suffixStr).length ≤ maxLen) := by
  simp only [planStep]
  split_ifs with hcur hlen
  · refine ⟨h1, fun _ => ?_⟩
    simpa [hcur, joinSep] using hc
  · refine ⟨h1, fun _ => ?_⟩
    exact hlen
  · refine ⟨?_, fun _ => ?_⟩
    · intro q hq
      simp only [List.mem_append, List.mem_singleton] at hq
      rcases hq with hq | hq
      · exact h1 q hq
      · exact hq ▸ h2 hcur
    · simpa [joinSep] using hc

theorem plan_foldl_bound (maxLen : Nat) :
    ∀ (hs : List String) (st : PlanState),
      (∀ h ∈ hs, ((("from:") ++ h) ++ suffixStr).length ≤ maxLen) →
      (∀ q ∈ st.query_strings, q.length ≤ maxLen) →
      (st.current ≠ [] → (joinSep (" OR ") st.current ++ suffixStr).length ≤ maxLen) →
      (∀ q ∈ ((hs.map (fun h => ("from:") ++ h)).foldl (planStep maxLen) st).query_strings,
          q.length ≤ maxLen)
      ∧ (((hs.map (fun h => ("from:") ++ h)).foldl (planStep maxLen) st).current ≠ [] →
          (joinSep (" OR ")
            ((hs.map (fun h => ("from:") ++ h)).foldl (planStep maxLen) st).current
            ++ suffixStr).length ≤ maxLen)
  | [], st => fun _ h1 h2 => ⟨h1, h2⟩
  | h :: hs, st => fun hfit h1 h2 => by
    simp only [List.map_cons, List.foldl_cons]
    have hstep := planStep_bound maxLen st (("from:") ++ h) (hfit h (by simp)) h1 h2
    exact plan_foldl_bound maxLen hs (planStep maxLen st (("from:") ++ h))
      (fun x hx => hfit x (by simp [hx])) hstep.1 hstep.2

theorem planFinish_bound (maxLen : Nat) (st : PlanState)
    (h1 : ∀ q ∈ st.query_strings, q.length ≤ maxLen)
    (h2 : st.current ≠ [] → (joinSep (" OR ") st.current ++ suffixStr).length ≤ maxLen) :
    ∀ q ∈ (planFinish st).query_strings, q.length ≤ maxLen := by
  simp only [planFinish]
  split
  next hcur => exact h1
  next hcur =>
    intro q hq
    simp only [List.mem_append, List.mem_singleton] at hq
    rcases hq with hq | hq
    · exact h1 q hq
    · exact hq ▸ h2 hcur

/-- C3 counterexample: with the length bound instantiated at 10, the lone
account `abcdef` has a clause-plus-suffix longer than the bound, and the
planner emits it as an over-length batch (33 characters) instead of
surfacing any configuration error — its output type has no error channel
at all. -/
theorem c3_counterexample :
    ∃ q ∈ (plan ([("abcdef")]) 10).1, 10 < q.length := by decide

/-- C3 (amended): when every account's own clause plus suffix fits the
bound, every composed query the planner returns has length at most the
bound; an account violating that premise is instead emitted as its own
over-length singleton batch, with no configuration error surfaced. -/
theorem c3_length_bound (handles : List String) (maxLen : Nat)
    (hfit : ∀ h ∈ handles, ((("from:") ++ h) ++ suffixStr).length ≤ maxLen) :
    ∀ q ∈ (plan handles maxLen).1, q.length ≤ maxLen := by
  simp only [plan]
  have hb := plan_foldl_bound maxLen handles ⟨[], [], []⟩ hfit (by simp) (by simp)
  exact planFinish_bound maxLen _ hb.1 hb.2

theorem c3_witness :
    (∀ h ∈ [("a"), ("b")], ((("from:") ++ h) ++ suffixStr).length ≤ 512)
    ∧ ∀ q ∈ (plan [("a"), ("b")] 512).1, q.length ≤ 512 :=
  ⟨by decide, c3_length_bound [("a"), ("b")] 512 (by decide)⟩

/-! ## Checkpoint theorems -/

theorem pyInt_digits (s : String) (h : isdigitB s = true) :
    pyInt? s = some ((dVal s.data : Int)) := by
  unfold pyInt?
  split
  next rest heq =>
    exfalso
    simp only [isdigitB, Bool.and_eq_true, heq, allDigits] at h
    simp [List.all_cons] at h
  next rest heq =>
    exfalso
    simp only [isdigitB, Bool.and_eq_true, heq, allDigits] at h
    simp [List.all_cons] at h
  next l hne1 hne2 =>
    simp only [isdigitB, Bool.and_eq_true] at h
    rw [if_pos]
    constructor
    · intro hl
      rw [hl] at h
      simp at h
    · exact h.2

theorem isdigitB_ne_empty (s : String) (h : isdigitB s = true) : s ≠ ("") := by
  intro he
  subst he
  simp [isdigitB] at h

theorem truthyStr_of_ne (s : String) (h : s ≠ ("")) : truthyStr (some s) = some s := by
  simp [truthyStr, h]

theorem truthyIds_digits : ∀ (ids : List String), (∀ s ∈ ids, isdigitB s = true) →
    truthyIds (ids.map some) = ids
  | [], _ => rfl
  | x :: xs, h => by
    have hx := isdigitB_ne_empty x (h x (by simp))
    simp only [truthyIds, List.map_cons, List.filterMap_cons, truthyStr_of_ne x hx]
    exact congrArg (x :: ·) (truthyIds_digits xs fun s hs => h s (List.mem_cons_of_mem _ hs))

theorem foldl_max_cast : ∀ (l : List String) (a : Nat),
    ((l.foldl (fun acc s => Nat.max acc (dVal s.data)) a : Nat) : Int)
      = l.foldl (fun acc s => max acc ((dVal s.data : Int))) (a : Int)
  | [], _ => rfl
  | x :: xs, a => by
    simp only [List.foldl_cons]
    rw [foldl_max_cast xs, Nat.cast_max]

theorem maxByIntAux_digits : ∀ (xs : List String) (b : String × Int),
    (∀ x ∈ xs, isdigitB x = true) → pyInt? b.1 = some b.2 →
    ∃ r, maxByIntAux b xs = some r ∧ (r = b.1 ∨ r ∈ xs) ∧
      pyInt? r = some (xs.foldl (fun acc x => max acc ((dVal x.data : Int))) b.2)
  | [], b, _, hb => ⟨b.1, rfl, Or.inl rfl, by simpa using hb⟩
  | x :: xs, b, h, hb => by
    have hx : pyInt? x = some ((dVal x.data : Int)) := pyInt_digits x (h x (by simp))
    simp only [maxByIntAux, hx, List.foldl_cons]
    by_cases hgt : (dVal x.data : Int) > b.2
    · obtain ⟨r, h1, h2, h3⟩ := maxByIntAux_digits xs (x, (dVal x.data : Int))
        (fun y hy => h y (List.mem_cons_of_mem _ hy)) (by simpa using hx)
      refine ⟨r, by simpa [hgt] using h1, ?_, ?_⟩
      · rcases h2 with h2 | h2
        · exact Or.inr (by simp [h2])
        · exact Or.inr (List.mem_cons_of_mem _ h2)
      · rw [h3, max_eq_right (le_of_lt hgt)]
    · obtain ⟨r, h1, h2, h3⟩ := maxByIntAux_digits xs b
        (fun y hy => h y (List.mem_cons_of_mem _ hy)) hb
      refine ⟨r, by simpa [hgt] using h1, ?_, ?_⟩
      · rcases h2 with h2 | h2
        · exact Or.inl h2
        · exact Or.inr (List.mem_cons_of_mem _ h2)
      · rw [h3, max_eq_left (not_lt.mp hgt)]

theorem maxByInt_digits (ids : List String) (hne : ids ≠ [])
    (h : ∀ s ∈ ids, isdigitB s = true) :
    ∃ r, maxByInt ids = some r ∧ r ∈ ids ∧
      dVal r.data = (ids.map (fun s => dVal s.data)).foldl Nat.max 0 ∧ isdigitB r = true := by
  match ids, hne with
  | x :: xs, _ =>
    have hx : pyInt? x = some ((dVal x.data : Int)) := pyInt_digits x (h x (by simp))
    obtain ⟨r, h1, h2, h3⟩ := maxByIntAux_digits xs (x, (dVal x.data : Int))
      (fun y hy => h y (List.mem_cons_of_mem _ hy)) (by simpa using hx)
    have hrmem : r ∈ x :: xs := by
      rcases h2 with h2 | h2
      · simp [h2]
      · exact List.mem_cons_of_mem _ h2
    have hrd : isdigitB r = true := h r hrmem
    refine ⟨r, ?_, hrmem, ?_, hrd⟩
    · simp only [maxByInt, hx]
      exact h1
    · have hcast : ((dVal r.data : Nat) : Int)
          = ((((x :: xs).map (fun s => dVal s.data)).foldl Nat.max 0 : Nat) : Int) := by
        rw [pyInt_digits r hrd] at h3
        have h3' := Option.some_injective _ h3
        rw [h3']
        simp only [List.map_cons, List.foldl_cons, List.foldl_map, Nat.zero_max]
        rw [foldl_max_cast]
      exact_mod_cast hcast

/-- C2: with a digit-string checkpoint and a nonempty response whose
observed ids are digit strings, the persisted checkpoint after the update
block equals the integer maximum of the observed ids and the previous
checkpoint, and the blob is overwritten exactly when that maximum
strictly exceeds the previous value. -/
theorem c2_checkpoint_max (p : String) (ids : List String)
    (hp : isdigitB p = true) (hids : ∀ s ∈ ids, isdigitB s = true) (hne : ids ≠ []) :
    dVal (((checkpointWrite (some p) (ids.map some)).getD p).data)
      = Nat.max (dVal p.data) ((ids.map (fun s => dVal s.data)).foldl Nat.max 0)
    ∧ (checkpointWrite (some p) (ids.map some) ≠ none
        ↔ dVal p.data < (ids.map (fun s => dVal s.data)).foldl Nat.max 0) := by
  obtain ⟨r, hr1, hr2, hr3, hr4⟩ := maxByInt_digits ids hne hids
  have hpr : pyInt? r = some ((dVal r.data : Int)) := pyInt_digits r hr4
  have hemp : ids.isEmpty = false := by
    cases ids with
    | nil => exact absurd rfl hne
    | cons a as => rfl
  have htp : truthyStr (some p) = some p := truthyStr_of_ne p (isdigitB_ne_empty p hp)
  simp only [checkpointWrite, truthyIds_digits ids hids, hemp, Bool.false_eq_true,
    if_false, hr1, hpr, htp]
  rw [if_pos (show some p ≠ none ∧ isdigitB p = true from by simp [hp])]
  by_cases hlt : dVal p.data < dVal r.data
  · rw [if_pos (by exact_mod_cast hlt)]
    refine ⟨?_, ?_⟩
    · simp only [Option.getD_some]
      rw [← hr3]
      exact (max_eq_right (le_of_lt hlt)).symm
    · simp only [ne_eq, Option.some_ne_none, not_false_eq_true, true_iff]
      rw [← hr3]
      exact hlt
  · rw [if_neg (by exact_mod_cast hlt)]
    refine ⟨?_, ?_⟩
    · simp only [Option.getD_none]
      rw [← hr3]
      exact (max_eq_left (not_lt.mp hlt)).symm
    · simp only [ne_eq, not_true_eq_false, false_iff, not_lt]
      rw [← hr3]
      exact not_lt.mp hlt

theorem c2_witness :
    dVal (((checkpointWrite (some ("100")) ([("50"), ("120")].map some)).getD ("100")).data)
      = Nat.max (dVal ("100").data) (([("50"), ("120")].map (fun s => dVal s.data)).foldl Nat.max 0)
    ∧ (checkpointWrite (some ("100")) ([("50"), ("120")].map some) ≠ none
        ↔ dVal ("100").data < ([("50"), ("120")].map (fun s => dVal s.data)).foldl Nat.max 0) :=
  c2_checkpoint_max ("100") [("50"), ("120")] (by decide) (by decide) (by decide)

theorem maxByIntAux_bad : ∀ (xs : List String) (b : String × Int),
    (∃ x ∈ xs, pyInt? x = none) → maxByIntAux b xs = none
  | x :: xs, b, ⟨y, hy, hbad⟩ => by
    rcases List.mem_cons.mp hy with hy | hy
    · subst hy
      simp only [maxByIntAux, hbad]
    · cases hx : pyInt? x with
      | none => simp only [maxByIntAux, hx]
      | some v =>
        simp only [maxByIntAux, hx]
        exact maxByIntAux_bad xs _ ⟨y, hy, hbad⟩

theorem maxByInt_bad : ∀ (l : List String), (∃ x ∈ l, pyInt? x = none) → maxByInt l = none
  | x :: xs, ⟨y, hy, hbad⟩ => by
    rcases List.mem_cons.mp hy with hy | hy
    · subst hy
      simp only [maxByInt, hbad]
    · cases hx : pyInt? x with
      | none => simp only [maxByInt, hx]
      | some v =>
        simp only [maxByInt, hx]
        exact maxByIntAux_bad xs _ ⟨y, hy, hbad⟩

/-- C5: the watermark comparison is robust to absent and non-numeric
identifiers. An absent (`None`) or empty observed id is simply filtered
out and never affects the outcome, and a truthy observed id that `int`
cannot parse aborts the whole update block (the exception is swallowed),
so nothing is persisted and nothing is raised; integer rather than
string comparison is the content of the c2 theorem. -/
theorem c5_fail_safe (since_id : Option String) (ids : List (Option String)) :
    checkpointWrite since_id (none :: ids) = checkpointWrite since_id ids
    ∧ checkpointWrite since_id (some ("") :: ids) = checkpointWrite since_id ids
    ∧ (∀ s, some s ∈ ids → s ≠ ("") → pyInt? s = none → checkpointWrite since_id ids = none) := by
  refine ⟨rfl, rfl, fun s hmem hne hbad => ?_⟩
  have hin : s ∈ truthyIds ids := by
    simp only [truthyIds, List.mem_filterMap]
    exact ⟨some s, hmem, truthyStr_of_ne s hne⟩
  have hmax : maxByInt (truthyIds ids) = none := maxByInt_bad _ ⟨s, hin, hbad⟩
  have hemp : (truthyIds ids).isEmpty = false := by
    cases h : truthyIds ids with
    | nil => rw [h] at hin; cases hin
    | cons a as => rfl
  simp only [checkpointWrite, hemp, Bool.false_eq_true, if_false, hmax]

theorem c5_witness :
    checkpointWrite (some ("100")) ([some ("abc"), some ("120")]) = none :=
  (c5_fail_safe (some ("100")) ([some ("abc"), some ("120")])).2.2 ("abc")
    (by decide) (by decide) (by decide)

/-! ## Cursor and cycle theorems -/

/-- C10: whatever the cursor blob held — missing, unreadable or
non-JSON, empty, lacking the key, a non-integer value, or an integer of
any sign or size — the selected batch index of a run is in `[0, num)`
when there is at least one batch, so indexing the query list cannot go
out of bounds; and every absent or non-integer shape loads the default
index 0. -/
theorem c10_selected_in_range (num : Nat) (h : 1 ≤ num) (bucket dateDir : String)
    (ok : String → String → Bool) (cursorOk chkOk : Bool) (store : Store) (payload : Payload) :
    (0 ≤ (runOnce num bucket dateDir ok cursorOk chkOk store payload).2.selected
      ∧ (runOnce num bucket dateDir ok cursorOk chkOk store payload).2.selected < (num : Int))
    ∧ (loadNextIndex CursorRead.missing = 0
      ∧ loadNextIndex CursorRead.readErr = 0
      ∧ loadNextIndex (CursorRead.content none) = 0
      ∧ loadNextIndex (CursorRead.content (some JVal.jother)) = 0) := by
  have hnum : (num : Int) ≠ 0 := Int.natCast_ne_zero.mpr (Nat.one_le_iff_ne_zero.mp h)
  refine ⟨⟨?_, ?_⟩, rfl, rfl, rfl, rfl⟩
  · simp only [runOnce]
    exact Int.emod_nonneg _ hnum
  · simp only [runOnce]
    exact Int.emod_lt_of_pos _ (by exact_mod_cast h)

theorem c10_witness :
    0 ≤ (runOnce 3 ("b") ("d") (fun _ _ => true) true true
        ⟨none, CursorRead.content (some (JVal.jint (-5)))⟩ ⟨[], [], []⟩).2.selected
    ∧ (runOnce 3 ("b") ("d") (fun _ _ => true) true true
        ⟨none, CursorRead.content (some (JVal.jint (-5)))⟩ ⟨[], [], []⟩).2.selected < (3 : Int) :=
  (c10_selected_in_range 3 (by decide) ("b") ("d") (fun _ _ => true) true true
    ⟨none, CursorRead.content (some (JVal.jint (-5)))⟩ ⟨[], [], []⟩).1

/-- C9: when the cursor blob upload itself succeeds, the persisted cursor
after a run is `(selected + 1) mod num` with `selected = next mod num`,
and this value is the same regardless of the response payload (including
the empty payload of a failed request), the media success oracle, and
the checkpoint upload outcome: the cursor is advanced before the request
and no later failure can undo it. -/
theorem c9_cursor_advance (num : Nat) (_h : 1 ≤ num) (bucket dateDir : String)
    (ok ok' : String → String → Bool) (chkOk chkOk' : Bool) (store : Store)
    (payload payload' : Payload) :
    (runOnce num bucket dateDir ok true chkOk store payload).1.cursor
      = CursorRead.content (some (JVal.jint
          (Int.emod (Int.emod (loadNextIndex store.cursor) (num : Int) + 1) (num : Int))))
    ∧ (runOnce num bucket dateDir ok true chkOk store payload).1.cursor
      = (runOnce num bucket dateDir ok' true chkOk' store payload').1.cursor := by
  exact ⟨rfl, rfl⟩

theorem c9_witness :
    (runOnce 2 ("b") ("d") (fun _ _ => true) true true
        ⟨some ("100"), CursorRead.content (some (JVal.jint 0))⟩ ⟨[], [], []⟩).1.cursor
      = CursorRead.content (some (JVal.jint
          (Int.emod (Int.emod (loadNextIndex (CursorRead.content (some (JVal.jint 0)))) (2 : Int) + 1) (2 : Int))))
    ∧ (runOnce 2 ("b") ("d") (fun _ _ => true) true true
        ⟨some ("100"), CursorRead.content (some (JVal.jint 0))⟩ ⟨[], [], []⟩).1.cursor
      = (runOnce 2 ("b") ("d") (fun _ _ => false) true false
        ⟨some ("100"), CursorRead.content (some (JVal.jint 0))⟩
        ⟨[], [], [⟨some ("7"), none, none, none, []⟩]⟩).1.cursor :=
  c9_cursor_advance 2 (by decide) ("b") ("d") (fun _ _ => true) (fun _ _ => false) true false
    ⟨some ("100"), CursorRead.content (some (JVal.jint 0))⟩ ⟨[], [], []⟩
    ⟨[], [], [⟨some ("7"), none, none, none, []⟩]⟩

/-- C1 counterexample: in one rotation cycle over two batches (selected
indices 0 then 1), the first tick observes id 120 and immediately
persists it, so the second tick of the same cycle queries with since_id
"120", not the cycle-start baseline "100": the baseline is not frozen
across a cycle. -/
theorem c1_counterexample :
    ((runs 2 ("b") ("d") (fun _ _ => true) true true
        ⟨some ("100"), CursorRead.content (some (JVal.jint 0))⟩
        [⟨[], [], [⟨some ("120"), none, none, none, []⟩]⟩, ⟨[], [], []⟩]).1.map TickOut.selected)
      = [0, 1]
    ∧ ((runs 2 ("b") ("d") (fun _ _ => true) true true
        ⟨some ("100"), CursorRead.content (some (JVal.jint 0))⟩
        [⟨[], [], [⟨some ("120"), none, none, none, []⟩]⟩, ⟨[], [], []⟩]).1.map TickOut.sentSince)
      = [some ("100"), some ("120")]
    ∧ (some ("120") : Option String) ≠ some ("100") := by
  refine ⟨rfl, rfl, by decide⟩

/-- C1 (amended): each tick's since_id equals the checkpoint as persisted
at that tick's start — i.e. after the previous ticks' updates — rather
than a baseline frozen at cycle start; it coincides with the first
tick's value only when no earlier tick of the cycle advanced the
checkpoint. -/
theorem c1_tick_uses_current_checkpoint (num : Nat) (bucket dateDir : String)
    (ok : String → String → Bool) (cursorOk chkOk : Bool) :
    ∀ (inputs : List Payload) (store : Store) (i : Nat), i < inputs.length →
      ((runs num bucket dateDir ok cursorOk chkOk store inputs).1.map TickOut.sentSince).getD i none
        = sentSinceId
            ((runs num bucket dateDir ok cursorOk chkOk store (inputs.take i)).2.checkpoint)
  | [], _, i, hi => by simp at hi
  | p :: ps, store, 0, _ => rfl
  | p :: ps, store, i + 1, hi => by
    simp only [runs, List.take_succ_cons, List.map_cons, List.getD_cons_succ]
    exact c1_tick_uses_current_checkpoint num bucket dateDir ok cursorOk chkOk ps _ i
      (by simpa using hi)

theorem c1_witness :
    ((runs 2 ("b") ("d") (fun _ _ => true) true true
        ⟨some ("100"), CursorRead.content (some (JVal.jint 0))⟩
        [⟨[], [], [⟨some ("120"), none, none, none, []⟩]⟩, ⟨[], [], []⟩]).1.map
          TickOut.sentSince).getD 1 none
      = sentSinceId
          ((runs 2 ("b") ("d") (fun _ _ => true) true true
            ⟨some ("100"), CursorRead.content (some (JVal.jint 0))⟩
            ([⟨[], [], [⟨some ("120"), none, none, none, []⟩]⟩, ⟨[], [], []⟩].take 1)).2.checkpoint) :=
  c1_tick_uses_current_checkpoint 2 ("b") ("d") (fun _ _ => true) true true
    [⟨[], [], [⟨some ("120"), none, none, none, []⟩]⟩, ⟨[], [], []⟩]
    ⟨some ("100"), CursorRead.content (some (JVal.jint 0))⟩ 1 (by decide)

/-! ## Media side-loader theorems -/

theorem pyMaxVarAux_mem : ∀ (vs : List Variant) (b : Variant),
    pyMaxVarAux b vs = b ∨ pyMaxVarAux b vs ∈ vs
  | [], _ => Or.inl rfl
  | v :: vs, b => by
    simp only [pyMaxVarAux]
    rcases pyMaxVarAux_mem vs (if variantKey v > variantKey b then v else b) with h | h
    · rw [h]
      split_ifs with hgt
      · exact Or.inr (by simp)
      · exact Or.inl rfl
    · exact Or.inr (List.mem_cons_of_mem _ h)

theorem pyMaxVarAux_ge : ∀ (vs : List Variant) (b : Variant),
    variantKey b ≤ variantKey (pyMaxVarAux b vs)
    ∧ ∀ v ∈ vs, variantKey v ≤ variantKey (pyMaxVarAux b vs)
  | [], _ => ⟨le_refl _, by simp⟩
  | v :: vs, b => by
    simp only [pyMaxVarAux]
    obtain ⟨h1, h2⟩ := pyMaxVarAux_ge vs (if variantKey v > variantKey b then v else b)
    have hb : variantKey b ≤ variantKey (if variantKey v > variantKey b then v else b) := by
      split_ifs with hgt
      · exact le_of_lt hgt
      · exact le_refl _
    have hv : variantKey v ≤ variantKey (if variantKey v > variantKey b then v else b) := by
      split_ifs with hgt
      · exact le_refl _
      · exact not_lt.mp hgt
    refine ⟨le_trans hb h1, fun w hw => ?_⟩
    rcases List.mem_cons.mp hw with hw | hw
    · subst hw
      exact le_trans hv h1
    · exact h2 w hw

/-- C7: for a video or animated-gif attachment the side-loader considers
exactly the `video/mp4` variants; when none exist the resolved URL falls
back to the preview image, and when some do, the first variant of
maximal declared bit rate (missing bit rates count as 0) is picked, and
its URL — if present and nonempty — is the resolved download URL. -/
theorem c7_variant_selection (m : MediaObj)
    (hk : m.mtype = some ("video") ∨ m.mtype = some ("animated_gif")) :
    (m.variants.filter (fun v => v.content_type = some ("video/mp4")) = [] →
      resolveDownloadUrl m = m.preview_image_url)
    ∧ ∀ best,
        pyMaxVar (m.variants.filter (fun v => v.content_type = some ("video/mp4"))) = some best →
        best ∈ m.variants.filter (fun v => v.content_type = some ("video/mp4"))
        ∧ (∀ v ∈ m.variants.filter (fun v => v.content_type = some ("video/mp4")),
            variantKey v ≤ variantKey best)
        ∧ (∀ u, best.url = some u → u ≠ ("") → resolveDownloadUrl m = some u) := by
  have hnp : ¬ m.mtype = some ("photo") := by
    rcases hk with hk | hk <;> simp [hk]
  constructor
  · intro hemp
    simp only [resolveDownloadUrl, if_neg hnp, if_pos hk, hemp, pyMaxVar, pyOrStr, truthyStr]
  · intro best hbest
    cases hmp : m.variants.filter (fun v => v.content_type = some ("video/mp4")) with
    | nil => rw [hmp] at hbest; cases hbest
    | cons v vs =>
      rw [hmp] at hbest
      simp only [pyMaxVar, Option.some_inj] at hbest
      obtain ⟨hge1, hge2⟩ := pyMaxVarAux_ge vs v
      refine ⟨?_, ?_, ?_⟩
      · rw [← hbest]
        rcases pyMaxVarAux_mem vs v with h | h
        · rw [h]; simp
        · exact List.mem_cons_of_mem _ h
      · intro w hw
        rw [← hbest]
        rcases List.mem_cons.mp hw with hw | hw
        · exact hw ▸ hge1
        · exact hge2 w hw
      · intro u hu hne
        simp only [resolveDownloadUrl, if_neg hnp, if_pos hk, hmp, pyMaxVar, hbest, hu,
          pyOrStr, truthyStr, if_neg hne]

theorem c7_witness :
    resolveDownloadUrl ⟨some ("mk1"), some ("video"), none, some ("prev"),
        [⟨some ("video/mp4"), some 500, some ("u500")⟩,
         ⟨some ("video/mp4"), some 1200, some ("u1200")⟩]⟩
      = some ("u1200") :=
  ((c7_variant_selection
      ⟨some ("mk1"), some ("video"), none, some ("prev"),
        [⟨some ("video/mp4"), some 500, some ("u500")⟩,
         ⟨some ("video/mp4"), some 1200, some ("u1200")⟩]⟩
      (Or.inl rfl)).2
    ⟨some ("video/mp4"), some 1200, some ("u1200")⟩ (by decide)).2.2 ("u1200") rfl (by decide)

theorem digitChar_toNat : ∀ d, d < 10 → (Nat.digitChar d).toNat = 48 + d := by decide

theorem toDigitsCore_append : ∀ (fuel n : Nat) (acc : List Char),
    Nat.toDigitsCore 10 fuel n acc = Nat.toDigitsCore 10 fuel n [] ++ acc
  | 0, _, _ => rfl
  | fuel+1, n, acc => by
    simp only [Nat.toDigitsCore]
    split
    · rfl
    · rw [toDigitsCore_append fuel (n/10) (Nat.digitChar (n % 10) :: acc),
          toDigitsCore_append fuel (n/10) [Nat.digitChar (n % 10)]]
      simp

theorem dVal_append (l : List Char) (c : Char) :
    dVal (l ++ [c]) = 10 * dVal l + (c.toNat - 48) := by
  simp [dVal, List.foldl_append]

theorem toDigitsCore_val : ∀ (fuel n : Nat), n < fuel →
    dVal (Nat.toDigitsCore 10 fuel n []) = n
  | 0, n, h => absurd h (Nat.not_lt_zero n)
  | fuel+1, n, h => by
    simp only [Nat.toDigitsCore]
    split
    next h0 =>
      have hn : n < 10 := by omega
      have hd : (Nat.digitChar (n % 10)).toNat = 48 + (n % 10) :=
        digitChar_toNat _ (Nat.mod_lt _ (by norm_num))
      simp [dVal, hd]
      omega
    next h0 =>
      rw [toDigitsCore_append, dVal_append]
      have hrec : n / 10 < fuel := by omega
      rw [toDigitsCore_val fuel (n/10) hrec]
      have hd : (Nat.digitChar (n % 10)).toNat = 48 + (n % 10) :=
        digitChar_toNat _ (Nat.mod_lt _ (by norm_num))
      rw [hd]
      omega

theorem toDigits_val (n : Nat) : dVal (Nat.toDigits 10 n) = n :=
  toDigitsCore_val (n+1) n (Nat.lt_succ_self n)

theorem reprData (n : Nat) : (Nat.repr n).data = Nat.toDigits 10 n := rfl

theorem repr_inj {m n : Nat} (h : Nat.repr m = Nat.repr n) : m = n := by
  have hd : Nat.toDigits 10 m = Nat.toDigits 10 n := by
    have h2 := congrArg String.data h
    simpa [reprData] using h2
  have h3 := congrArg dVal hd
  simpa [toDigits_val] using h3

theorem toDigits_length_pos (n : Nat) : 0 < (Nat.toDigits 10 n).length := by
  show 0 < (Nat.toDigitsCore 10 (n+1) n []).length
  simp only [Nat.toDigitsCore]
  split
  · simp
  · rw [toDigitsCore_append]
    simp

theorem str_data_inj {a b : String} (h : a.data = b.data) : a = b := by
  cases a
  cases b
  exact congrArg String.mk h

theorem rsplitDotAux_eq : ∀ (l a b : List Char),
    rsplitDotAux l = some (a, b) → l = a ++ '.' :: b
  | [], _, _, h => by cases h
  | c :: cs, a, b, h => by
    cases hr : rsplitDotAux cs with
    | some p =>
      obtain ⟨p1, p2⟩ := p
      simp only [rsplitDotAux, hr, Option.some_inj, Prod.mk.injEq] at h
      obtain ⟨ha, hb⟩ := h
      have hcs := rsplitDotAux_eq cs p1 p2 hr
      rw [← ha, ← hb, hcs]
      rfl
    | none =>
      simp only [rsplitDotAux, hr] at h
      split at h
      next hc =>
        simp only [Option.some_inj, Prod.mk.injEq] at h
        obtain ⟨ha, hb⟩ := h
        rw [← ha, ← hb, hc]
        rfl
      next => cases h

theorem mkCandidate_data_length (base : String) (k : Nat) :
    (mkCandidate base k).data.length = base.data.length + 1 + (Nat.repr k).data.length := by
  unfold mkCandidate
  cases hr : rsplitDotAux base.data with
  | none =>
    show ((base ++ ("_") ++ Nat.repr k).data).length = _
    simp
    omega
  | some p =>
    obtain ⟨stem, ext⟩ := p
    have hbase := rsplitDotAux_eq base.data stem ext hr
    show ((String.mk stem ++ ("_") ++ Nat.repr k ++ (".") ++ String.mk ext).data).length = _
    simp [hbase]
    omega

theorem repr_data_length_pos (k : Nat) : 0 < (Nat.repr k).data.length := by
  rw [reprData]
  exact toDigits_length_pos k

theorem mkCandidate_ne_base (base : String) (k : Nat) : mkCandidate base k ≠ base := by
  intro h
  have h2 := congrArg (fun s => s.data.length) h
  simp only [mkCandidate_data_length] at h2
  have := repr_data_length_pos k
  omega

theorem mkCandidate_inj (base : String) {i j : Nat}
    (h : mkCandidate base i = mkCandidate base j) : i = j := by
  have hd := congrArg String.data h
  unfold mkCandidate at hd
  cases hr : rsplitDotAux base.data with
  | none =>
    rw [hr] at hd
    have h1 : base.data ++ '_' :: (Nat.repr i).data = base.data ++ '_' :: (Nat.repr j).data := by
      simpa using hd
    have h2 := List.append_cancel_left h1
    have h3 : (Nat.repr i).data = (Nat.repr j).data := by
      simpa using h2
    exact repr_inj (str_data_inj h3)
  | some p =>
    obtain ⟨stem, ext⟩ := p
    rw [hr] at hd
    have h1 : stem ++ '_' :: ((Nat.repr i).data ++ '.' :: ext)
        = stem ++ '_' :: ((Nat.repr j).data ++ '.' :: ext) := by
      simpa using hd
    have h2 := List.append_cancel_left h1
    have h3 : (Nat.repr i).data ++ '.' :: ext = (Nat.repr j).data ++ '.' :: ext := by
      simpa using h2
    have hlen : (Nat.repr i).data.length = (Nat.repr j).data.length := by
      have h5 := congrArg List.length h3
      simp only [List.length_append, List.length_cons] at h5
      omega
    have h4 := (List.append_inj h3 hlen).1
    exact repr_inj (str_data_inj h4)

theorem candAt_inj (base : String) : Function.Injective (candAt base) := by
  intro i j h
  unfold candAt at h
  split_ifs at h with hi hj hj
  · omega
  · exact absurd h.symm (mkCandidate_ne_base base j)
  · exact absurd h (mkCandidate_ne_base base i)
  · exact mkCandidate_inj base h

theorem firstFree_cases (used : List String) (base : String) :
    ∀ (fuel k : Nat), (∀ i, i < fuel → candAt base (k + i) ∈ used)
      ∨ firstFree used base fuel k ∉ used
  | 0, _ => Or.inl (fun i hi => absurd hi (Nat.not_lt_zero i))
  | fuel+1, k => by
    simp only [firstFree]
    by_cases hmem : candAt base k ∈ used
    · rw [if_pos hmem]
      rcases firstFree_cases used base fuel (k+1) with h | h
      · left
        intro i hi
        cases i with
        | zero => simpa using hmem
        | succ i =>
          have h2 := h i (by omega)
          rw [show k + (i+1) = k + 1 + i by omega]
          exact h2
      · exact Or.inr h
    · rw [if_neg hmem]
      exact Or.inr hmem

theorem dedupName_not_mem (used : List String) (base : String) :
    dedupName used base ∉ used := by
  rcases firstFree_cases used base (used.length + 1) 0 with h | h
  · exfalso
    have hnd : ((List.range (used.length + 1)).map (candAt base)).Nodup :=
      (List.nodup_range _).map (candAt_inj base)
    have hsub : ((List.range (used.length + 1)).map (candAt base)) ⊆ used := by
      intro x hx
      simp only [List.mem_map, List.mem_range] at hx
      obtain ⟨i, hi, rfl⟩ := hx
      have h2 := h i hi
      simpa using h2
    have hlen := List.Subperm.length_le (List.subperm_of_subset hnd hsub)
    simp at hlen
  · exact h

theorem mediaStep_nodup (ok : String → String → Bool) (bucket dateDir tid : String)
    (mediaMap : List (String × MediaObj)) (acc : MediaAcc) (mk : String)
    (h : acc.used_names.Nodup) :
    (mediaStep ok bucket dateDir tid mediaMap acc mk).used_names.Nodup := by
  cases hg : pyDictGet mediaMap mk with
  | none => simpa [mediaStep, hg] using h
  | some m =>
    cases hu : truthyStr (resolveDownloadUrl m) with
    | none => simpa [mediaStep, hg, hu] using h
    | some url =>
      simp only [mediaStep, hg, hu]
      exact List.Nodup.append h (List.nodup_singleton _)
        (fun a ha hb => by
          simp only [List.mem_singleton] at hb
          exact dedupName_not_mem acc.used_names (originalNameOf url) (hb ▸ ha))

theorem mediaFold_nodup (ok : String → String → Bool) (bucket dateDir tid : String)
    (mediaMap : List (String × MediaObj)) :
    ∀ (mks : List String) (acc : MediaAcc), acc.used_names.Nodup →
      (mks.foldl (mediaStep ok bucket dateDir tid mediaMap) acc).used_names.Nodup
  | [], _, h => h
  | mk :: mks, acc, h => by
    simp only [List.foldl_cons]
    exact mediaFold_nodup ok bucket dateDir tid mediaMap mks _
      (mediaStep_nodup ok bucket dateDir tid mediaMap acc mk h)

/-- C8: the filenames reserved for a post's attachments are pairwise
distinct. The collision loop always returns a name not yet used within
the post (appending a decimal suffix before the extension as needed),
and a base name with no collision is kept verbatim, so two attachments
resolving to the same base filename get distinct names. -/
theorem c8_filenames_distinct (ok : String → String → Bool) (bucket dateDir tid : String)
    (mediaMap : List (String × MediaObj)) (mks : List String) :
    (processMedia ok bucket dateDir tid mediaMap mks).used_names.Nodup
    ∧ (∀ used base, dedupName used base ∉ used)
    ∧ (∀ used base, base ∉ used → dedupName used base = base) := by
  refine ⟨mediaFold_nodup ok bucket dateDir tid mediaMap mks ⟨[], [], [], []⟩ List.nodup_nil,
    dedupName_not_mem, fun used base h => ?_⟩
  simp [dedupName, firstFree, candAt, h]

theorem c8_witness :
    dedupName [("x.jpg")] ("x.jpg") ∉ ([("x.jpg")] : List String)
    ∧ dedupName [("x.jpg")] ("y.jpg") = ("y.jpg") :=
  ⟨(c8_filenames_distinct (fun _ _ => true) ("b") ("d") ("t") [] []).2.1 [("x.jpg")] ("x.jpg"),
   (c8_filenames_distinct (fun _ _ => true) ("b") ("d") ("t") [] []).2.2 [("x.jpg")] ("y.jpg")
     (by decide)⟩

theorem mediaFold_spec (bucket dateDir tid : String) (mediaMap : List (String × MediaObj)) :
    ∀ (mks : List String) (used : List String),
      ∃ (U S : List String) (T : List (String × String)),
        ∀ (ok : String → String → Bool) (urls paths : List String)
          (tried : List (String × String)),
          mks.foldl (mediaStep ok bucket dateDir tid mediaMap) ⟨urls, paths, used, tried⟩
            = ⟨urls ++ U,
                paths ++ (T.filter (fun a => ok a.1 a.2)).map (fun a => gsPathOf bucket a.2),
                S, tried ++ T⟩
  | [], used => ⟨[], used, [], fun ok urls paths tried => by simp⟩
  | mk :: mks, used => by
    cases hg : pyDictGet mediaMap mk with
    | none =>
      obtain ⟨U, S, T, h⟩ := mediaFold_spec bucket dateDir tid mediaMap mks used
      exact ⟨U, S, T, fun ok urls paths tried => by
        simp only [List.foldl_cons, mediaStep, hg]
        exact h ok urls paths tried⟩
    | some m =>
      cases hu : truthyStr (resolveDownloadUrl m) with
      | none =>
        obtain ⟨U, S, T, h⟩ := mediaFold_spec bucket dateDir tid mediaMap mks used
        exact ⟨U, S, T, fun ok urls paths tried => by
          simp only [List.foldl_cons, mediaStep, hg, hu]
          exact h ok urls paths tried⟩
      | some url =>
        obtain ⟨U, S, T, h⟩ := mediaFold_spec bucket dateDir tid mediaMap mks
          (used ++ [dedupName used (originalNameOf url)])
        refine ⟨url :: U, S,
          (url, mediaBlobPath dateDir tid (dedupName used (originalNameOf url))) :: T,
          fun ok urls paths tried => ?_⟩
        simp only [List.foldl_cons, mediaStep, hg, hu]
        rw [h]
        by_cases hok : ok url (mediaBlobPath dateDir tid (dedupName used (originalNameOf url)))
          <;> simp [hok, List.filter_cons]

theorem foldl_append_singleton {α β : Type} (f : α → β) :
    ∀ (l : List α) (acc : List β),
      l.foldl (fun ls t => ls ++ [f t]) acc = acc ++ l.map f
  | [], acc => by simp
  | x :: xs, acc => by
    simp only [List.foldl_cons, List.map_cons]
    rw [foldl_append_singleton f xs]
    simp

/-- C6: a failed download or upload of one asset (oracle false on its
url and blob path) removes only that asset's GCS path from the record:
the resolved url list, the reserved filenames, the attempted sibling
assets, and the record's identity fields are the same as in a fully
successful run, the record is still produced, and every other post in
the response still yields its own record. -/
theorem c6_media_failure_isolated (ok : String → String → Bool) (bucket dateDir : String)
    (userMap : List (String × String)) (mediaMap : List (String × MediaObj)) (t : Tweet)
    (tweets : List Tweet) :
    (recordOf ok bucket dateDir userMap mediaMap t).media_urls
      = (recordOf (fun _ _ => true) bucket dateDir userMap mediaMap t).media_urls
    ∧ (processMedia ok bucket dateDir ((t.tid).getD ("")) mediaMap t.media_keys).tried
      = (processMedia (fun _ _ => true) bucket dateDir ((t.tid).getD ("")) mediaMap
          t.media_keys).tried
    ∧ (recordOf ok bucket dateDir userMap mediaMap t).rid = t.tid
    ∧ (recordOf ok bucket dateDir userMap mediaMap t).media_gcs_paths
      = (((processMedia (fun _ _ => true) bucket dateDir ((t.tid).getD ("")) mediaMap
            t.media_keys).tried).filter (fun a => ok a.1 a.2)).map
          (fun a => gsPathOf bucket a.2)
    ∧ buildLines ok bucket dateDir userMap mediaMap tweets
      = tweets.map (recordOf ok bucket dateDir userMap mediaMap) := by
  obtain ⟨U, S, T, h⟩ := mediaFold_spec bucket dateDir ((t.tid).getD ("")) mediaMap
    t.media_keys []
  have hok := h ok [] [] []
  have hall := h (fun _ _ => true) [] [] []
  refine ⟨?_, ?_, rfl, ?_, ?_⟩
  · show (processMedia ok bucket dateDir ((t.tid).getD ("")) mediaMap t.media_keys).media_urls
      = (processMedia (fun _ _ => true) bucket dateDir ((t.tid).getD ("")) mediaMap
          t.media_keys).media_urls
    simp only [processMedia]
    rw [hok, hall]
  · simp only [processMedia]
    rw [hok, hall]
  · show (processMedia ok bucket dateDir ((t.tid).getD ("")) mediaMap
        t.media_keys).media_gcs_paths = _
    simp only [processMedia]
    rw [hok, hall]
    simp
  · simp only [buildLines]
    rw [foldl_append_singleton]
    simp
